import Mathlib

/-!
Verification of the procedural paper-tear geometry implemented in
`src/components/LetterSection.tsx` of the happy-valentines-rain page.

Modelling conventions:
* JavaScript numbers are modelled as exact rationals (`ℚ`).
* `Math.sqrt` is modelled as an explicit function parameter `sq : ℚ → ℚ`
  wherever the source calls it; theorems that depend on its behaviour
  assume only properties the real square root enjoys (monotonicity,
  nonnegativity on nonnegative inputs, `sq 0 = 0`).
* The local mutable generator returned by `seededRandom` is modelled as
  the indexed stream of its successive states/outputs.
-/

namespace TearSim

/-- `interface TearPoint \x7b x, y \x7d` — a point in normalized (0-1)
surface coordinates. -/
structure TearPoint where
  x : ℚ
  y : ℚ
  deriving DecidableEq, Repr

/-- `Math.max(0, Math.min(1, v))` — the clamp used throughout the source. -/
def clamp01 (v : ℚ) : ℚ := max 0 (min 1 v)

/-! ## Edge Extension Resolver (`extendToEdge`, source lines 717-763) -/

/-- The candidate list built by `extendToEdge`: for each axis with a
nonzero direction component, the boundary-line intersections at positive
parameter `t`, pushed in source order (left, right, top, bottom). -/
def edgeCandidates (point : TearPoint) (dx dy : ℚ) : List TearPoint :=
  (if dx ≠ 0 then
    (if 0 < -point.x / dx then [⟨0, point.y + dy * (-point.x / dx)⟩] else []) ++
    (if 0 < (1 - point.x) / dx then [⟨1, point.y + dy * ((1 - point.x) / dx)⟩] else [])
  else []) ++
  (if dy ≠ 0 then
    (if 0 < -point.y / dy then [⟨point.x + dx * (-point.y / dy), 0⟩] else []) ++
    (if 0 < (1 - point.y) / dy then [⟨point.x + dx * ((1 - point.y) / dy), 1⟩] else [])
  else [])

/-- One iteration of the `for (const c of candidates)` loop in
`extendToEdge`: accept `c` if it lies within `[-0.01, 1.01]` on both axes
and its squared distance to `point` beats the best so far (`none`
modelling the initial `Infinity`), storing the clamped point. -/
def edgeBestStep (point : TearPoint) (acc : TearPoint × Option ℚ)
    (c : TearPoint) : TearPoint × Option ℚ :=
  if -0.01 ≤ c.x ∧ c.x ≤ 1.01 ∧ -0.01 ≤ c.y ∧ c.y ≤ 1.01 then
    match acc.2 with
    | none =>
      (⟨clamp01 c.x, clamp01 c.y⟩, some ((c.x - point.x) ^ 2 + (c.y - point.y) ^ 2))
    | some bd =>
      if (c.x - point.x) ^ 2 + (c.y - point.y) ^ 2 < bd then
        (⟨clamp01 c.x, clamp01 c.y⟩, some ((c.x - point.x) ^ 2 + (c.y - point.y) ^ 2))
      else acc
  else acc

/-- `extendToEdge(point, neighbor, isStart)`: extend `point` along the
direction `point − neighbor` to the nearest valid unit-square boundary
point; fallback is `point.x` clamped, projected onto the top edge. -/
def extendToEdge (point neighbor : TearPoint) (isStart : Bool) : TearPoint :=
  let dx := if isStart then point.x - neighbor.x else point.x - neighbor.x
  let dy := if isStart then point.y - neighbor.y else point.y - neighbor.y
  ((edgeCandidates point dx dy).foldl (edgeBestStep point)
    (⟨clamp01 point.x, 0⟩, none)).1

/-! ## Deterministic Noise Source (`seededRandom`, source lines 10-16) -/

/-- Successive internal states of the generator returned by
`seededRandom`: `s = (s * 16807 + 0) % 2147483647`, starting from the
seed. The JS `%` is a remainder whose sign follows the dividend, i.e.
`Int.tmod`. -/
def lcgState (seed : Int) : Nat → Int
  | 0 => seed
  | n + 1 => (lcgState seed n * 16807).tmod 2147483647

/-- The value returned by the n-th call (n ≥ 1) of the closure returned
by `seededRandom`: `(s - 1) / 2147483646` after the n-th state update. -/
def lcgVal (seed : Int) (n : Nat) : ℚ :=
  ((lcgState seed n : ℚ) - 1) / 2147483646

/-! ## Jagged Edge Generator (`generateJaggedEdge`, source lines 24-56) -/

/-- The normal of the segment `p1 → p2` computed by `generateJaggedEdge`:
`(-dy / (len || 1), dx / (len || 1))` with `len = sq(dx*dx + dy*dy)`;
the JS `len || 1` falls back to the divisor 1 when `len = 0`. -/
def jaggedNormal (sq : ℚ → ℚ) (p1 p2 : TearPoint) : ℚ × ℚ :=
  let dx := p2.x - p1.x
  let dy := p2.y - p1.y
  let len := sq (dx * dx + dy * dy)
  (-dy / (if len = 0 then 1 else len), dx / (if len = 0 then 1 else len))

/-- The interior point pushed by iteration `i` (for `1 ≤ i ≤ segments−1`)
of the loop in `generateJaggedEdge`. The closure `rng` is drawn three
times per iteration, so iteration `i` consumes the stream values
numbered `3(i−1)+1` (perpendicular offset), `3(i−1)+2` and `3(i−1)+3`
(micro-jitter). -/
def jaggedInterior (sq : ℚ → ℚ) (p1 p2 : TearPoint) (jaggedness : ℚ)
    (segments : Nat) (seed : Int) (i : Nat) : TearPoint :=
  let dx := p2.x - p1.x
  let dy := p2.y - p1.y
  let n := jaggedNormal sq p1 p2
  let t : ℚ := (i : ℚ) / (segments : ℚ)
  let baseX := p1.x + dx * t
  let baseY := p1.y + dy * t
  let offset := (lcgVal seed (3 * (i - 1) + 1) - 0.5) * 2 * jaggedness
  let microX := (lcgVal seed (3 * (i - 1) + 2) - 0.5) * jaggedness * 0.3
  let microY := (lcgVal seed (3 * (i - 1) + 3) - 0.5) * jaggedness * 0.3
  ⟨baseX + n.1 * offset + microX, baseY + n.2 * offset + microY⟩

/-- `generateJaggedEdge(p1, p2, jaggedness, segments, seed)`: `p1`, then
the interior points for `i = 1 .. segments−1`, then `p2`. -/
def generateJaggedEdge (sq : ℚ → ℚ) (p1 p2 : TearPoint) (jaggedness : ℚ)
    (segments : Nat) (seed : Int) : List TearPoint :=
  (p1 :: (List.range' 1 (segments - 1)).map
    (jaggedInterior sq p1 p2 jaggedness segments seed)) ++ [p2]

/-! ## Chained jagged path (`jaggedTearPoints` memo, source lines 307-325) -/

/-- Seed used for source segment `i`: `i * 137 + 7`. -/
def chainSeed (i : Nat) : Int := (i : Int) * 137 + 7

/-- Jaggedness used by the memo: `0.012 + tearProgress * 0.008`. -/
def chainJag (progress : ℚ) : ℚ := 0.012 + progress * 0.008

/-- The loop of the `jaggedTearPoints` memo: each consecutive pair of
source points is jagged with 4 segments and seed `i*137+7`, and for
`i > 0` the first jagged point is dropped. `i` is the index of the first
of the two source points. -/
def chainJagged (sq : ℚ → ℚ) (progress : ℚ) : Nat → List TearPoint → List TearPoint
  | _, [] => []
  | _, [_] => []
  | i, q1 :: q2 :: rest =>
    (if i = 0 then generateJaggedEdge sq q1 q2 (chainJag progress) 4 (chainSeed i)
     else (generateJaggedEdge sq q1 q2 (chainJag progress) 4 (chainSeed i)).drop 1) ++
    chainJagged sq progress (i + 1) (q2 :: rest)

/-- `jaggedTearPoints` derived from a source path (`completedTear`, or the
raw `tearPath` during a drag): empty when the source has fewer than 2
points. -/
def jaggedTearPoints (sq : ℚ → ℚ) (source : List TearPoint) (progress : ℚ) :
    List TearPoint :=
  if source.length < 2 then [] else chainJagged sq progress 0 source

/-! ## Clip Geometry Builder (`topClip`/`bottomClip` memo, source lines 364-392)

The memo renders each coordinate as a percentage with one decimal
(`(v * 100).toFixed(1)`); we model the rendered vertex as the coordinate
rounded to a multiple of 1/1000 (ties toward the larger value, as in JS
`toFixed`). The returned `topPath`/`bottomPath` polygon strings are
modelled as their vertex lists. -/

/-- `toFixed(1)` of a normalized coordinate shown as a percentage. -/
def pctRound (q : ℚ) : ℚ := (round (q * 1000) : ℚ) / 1000

/-- A tear vertex as it appears in the polygon strings. -/
def roundPt (p : TearPoint) : TearPoint := ⟨pctRound p.x, pctRound p.y⟩

/-- The two clip polygons: `topPath` walks the corners `(0,0)`, `(1,0)`,
down the right side to the last tear vertex's height, then the tear
reversed, then up the left side from the first tear vertex's height;
`bottomPath` starts at the first tear vertex's height on the left, walks
the tear forward, then down the right side and along the bottom. Fewer
than 2 jagged points yield the empty (no-op) polygons. -/
def clipPolys (pts : List TearPoint) : List TearPoint × List TearPoint :=
  match pts with
  | p1 :: p2 :: rest =>
    let tearFwd := (p1 :: p2 :: rest).map roundPt
    let tearRev := ((p1 :: p2 :: rest).reverse).map roundPt
    let firstY := pctRound p1.y
    let lastY := pctRound (((p2 :: rest).getLastD p2).y)
    ([⟨0, 0⟩, ⟨1, 0⟩, ⟨1, lastY⟩] ++ tearRev ++ [⟨0, firstY⟩],
     ⟨0, firstY⟩ :: (tearFwd ++ [⟨1, lastY⟩, ⟨1, 1⟩, ⟨0, 1⟩]))
  | _ => ([], [])

/-- Shoelace cross term of one directed polygon edge. -/
def cross2 (a b : TearPoint) : ℚ := a.x * b.y - b.x * a.y

/-- Sum of the shoelace cross terms along an open polyline. -/
def segSum : List TearPoint → ℚ
  | [] => 0
  | [_] => 0
  | a :: b :: rest => cross2 a b + segSum (b :: rest)

/-- Signed shoelace area of the closed polygon with the given vertex
list (the closing edge from the last vertex back to the first is
included by appending the head). -/
def shoelace (l : List TearPoint) : ℚ := segSum (l ++ l.take 1) / 2

/-! ## Gesture Tracking State Machine (source lines 113-304)

The React component state and refs are collected in one record; the
`onRevealed?.()` callback is modelled by counting its invocations. The
cover element's bounding rectangle and offset dimensions, and the
`isMobileRef` flag, are a fixed configuration (the cover element is
taken to be mounted, so `getNormalizedPos` never returns null and the
700px diagonal fallback for a missing element is not exercised). -/

/-- Fixed environment of the handlers: the cover's bounding rectangle,
its offset dimensions, and whether the device is touch-capable. -/
structure CoverConfig where
  left : ℚ
  top : ℚ
  width : ℚ
  height : ℚ
  offsetW : ℚ
  offsetH : ℚ
  isMobile : Bool

/-- The component state and refs relevant to the tear interaction. -/
structure TearState where
  isRevealed : Bool
  isDragging : Bool
  tearProgress : ℚ
  tearPath : List TearPoint
  completedTear : Option (List TearPoint)
  dragStart : Option (ℚ × ℚ)
  lastPoint : Option TearPoint
  revealedCalls : Nat
  deriving Repr

/-- The state on mount. -/
def initState : TearState :=
  ⟨false, false, 0, [], none, none, none, 0⟩

/-- `getNormalizedPos`: position relative to the cover, clamped into the
unit square. -/
def getNormalizedPos (cfg : CoverConfig) (clientX clientY : ℚ) : TearPoint :=
  ⟨clamp01 ((clientX - cfg.left) / cfg.width),
   clamp01 ((clientY - cfg.top) / cfg.height)⟩

/-- `finishTear(lastPos?)`: append the optional final position, extend
both path ends to the boundary into `completedTear` when the path has at
least 2 points, mark revealed, clear the drag refs, and fire
`onRevealed`. -/
def finishTear (lastPos : Option TearPoint) (s : TearState) : TearState :=
  let finalPath := s.tearPath ++ lastPos.toList
  let s1 :=
    match finalPath with
    | a :: b :: _ =>
      { s with tearPath := finalPath,
               completedTear := some ((extendToEdge a b true :: finalPath) ++
                 [extendToEdge (finalPath.getLastD a)
                   (finalPath.dropLast.getLastD a) false]) }
    | _ => { s with tearPath := finalPath }
  { s1 with isRevealed := true, isDragging := false, dragStart := none,
            lastPoint := none, revealedCalls := s1.revealedCalls + 1 }

/-- `handleCoverPointerDown`: ignored once revealed; otherwise starts a
drag session at the pointer position. -/
def handleCoverPointerDown (cfg : CoverConfig) (clientX clientY : ℚ)
    (s : TearState) : TearState :=
  if s.isRevealed = true then s
  else
    { s with dragStart := some (clientX, clientY),
             lastPoint := some (getNormalizedPos cfg clientX clientY),
             isDragging := true,
             tearPath := [getNormalizedPos cfg clientX clientY] }

/-- `handleCoverPointerMove`: guard `!isDragging || !dragStartRef ||
isRevealed` (and the null check on `lastPointRef`); append the point if
it moved beyond 0.012; recompute progress from the raw drag distance
against 85% of the cover diagonal; short-circuit to `finishTear` when
progress reaches 1, or ≥ 0.75 with the position within 3% of an edge. -/
def handleCoverPointerMove (sq : ℚ → ℚ) (cfg : CoverConfig)
    (clientX clientY : ℚ) (s : TearState) : TearState :=
  if s.isDragging = false ∨ s.isRevealed = true then s
  else
    match s.dragStart, s.lastPoint with
    | some st, some lp =>
      let pos := getNormalizedPos cfg clientX clientY
      let s1 :=
        if 0.012 < sq ((pos.x - lp.x) * (pos.x - lp.x) +
            (pos.y - lp.y) * (pos.y - lp.y)) then
          { s with lastPoint := some pos, tearPath := s.tearPath ++ [pos] }
        else s
      let progress :=
        min (sq ((clientX - st.1) * (clientX - st.1) +
              (clientY - st.2) * (clientY - st.2)) /
            (sq (cfg.offsetW ^ 2 + cfg.offsetH ^ 2) * 0.85)) 1
      let s2 := { s1 with tearProgress := progress }
      if 1 ≤ progress ∨ (0.75 ≤ progress ∧
          (pos.x ≤ 0.03 ∨ 0.97 ≤ pos.x ∨ pos.y ≤ 0.03 ∨ 0.97 ≤ pos.y)) then
        finishTear (some pos) s2
      else s2
    | _, _ => s

/-- The release-time near-edge test: the last recorded point is within
4% of some edge; false when no point was recorded. -/
def nearEdgeUp : Option TearPoint → Prop
  | some p => p.x ≤ 0.04 ∨ 0.96 ≤ p.x ∨ p.y ≤ 0.04 ∨ 0.96 ≤ p.y
  | none => False

instance (o : Option TearPoint) : Decidable (nearEdgeUp o) :=
  match o with
  | some p => inferInstanceAs (Decidable (_ ∨ _ ∨ _ ∨ _))
  | none => inferInstanceAs (Decidable False)

/-- `handleCoverPointerUp`: ignored once revealed; commits via
`finishTear` when progress ≥ 0.85, or ≥ 0.6 with the last point near an
edge; otherwise snaps back, clearing the path and resetting progress. -/
def handleCoverPointerUp (s : TearState) : TearState :=
  if s.isRevealed = true then s
  else
    let s1 :=
      if 0.85 ≤ s.tearProgress ∨ (0.6 ≤ s.tearProgress ∧ nearEdgeUp s.lastPoint) then
        finishTear none s
      else { s with tearPath := [], tearProgress := 0 }
    { s1 with isDragging := false, dragStart := none, lastPoint := none }

/-- Point `i` (0 ≤ i ≤ 20) of the simulated diagonal tear of the tap
fallback; each loop iteration draws the seed-42 rng twice. -/
def fakeTearPoint (i : Nat) : TearPoint :=
  ⟨0.1 + ((i : ℚ) / 20) * 0.8 + (lcgVal 42 (2 * i + 1) - 0.5) * 0.03,
   0.3 + ((i : ℚ) / 20) * 0.4 + (lcgVal 42 (2 * i + 2) - 0.5) * 0.03⟩

/-- The simulated diagonal tear of `handleTapOpen`. -/
def fakeTear : List TearPoint := (List.range 21).map fakeTearPoint

/-- `handleTapOpen`: mobile-only tap fallback; ignored when revealed or
dragging; otherwise installs the fixed fake tear, sets progress to 1,
marks revealed and fires `onRevealed`. -/
def handleTapOpen (cfg : CoverConfig) (s : TearState) : TearState :=
  if s.isRevealed = true ∨ s.isDragging = true then s
  else if cfg.isMobile = false then s
  else
    { s with tearPath := fakeTear, tearProgress := 1,
             completedTear := some ((⟨0, 0.28⟩ :: fakeTear) ++ [⟨1, 0.72⟩]),
             isRevealed := true,
             revealedCalls := s.revealedCalls + 1 }

/-- The pointer/tap events consumed by the tear surface. -/
inductive TearEvent where
  | down (clientX clientY : ℚ)
  | move (clientX clientY : ℚ)
  | up
  | tap

/-- One event dispatch. -/
def step (sq : ℚ → ℚ) (cfg : CoverConfig) (s : TearState) : TearEvent → TearState
  | .down cx cy => handleCoverPointerDown cfg cx cy s
  | .move cx cy => handleCoverPointerMove sq cfg cx cy s
  | .up => handleCoverPointerUp s
  | .tap => handleTapOpen cfg s

/-- A whole session: a sequence of events dispatched from the mount
state. -/
def runEvents (sq : ℚ → ℚ) (cfg : CoverConfig) (es : List TearEvent) : TearState :=
  es.foldl (step sq cfg) initState

/-- `InteractionPhase`, derived from the two flags. -/
inductive InteractionPhase where
  | Idle
  | Dragging
  | Revealed
  deriving DecidableEq, Repr

/-- The phase of a state. -/
def phase (s : TearState) : InteractionPhase :=
  if s.isRevealed = true then .Revealed
  else if s.isDragging = true then .Dragging
  else .Idle

/-! ## Theorems -/

/-- The clamp really lands in `[0,1]`. -/
theorem clamp01_mem (v : ℚ) : 0 ≤ clamp01 v ∧ clamp01 v ≤ 1 := by
  unfold clamp01
  exact ⟨le_max_left _ _, max_le zero_le_one (min_le_left 1 v)⟩

/-- membership of the accumulator's best point in the unit square is an
invariant of the candidate fold. -/
theorem edgeBestStep_fold_mem (point : TearPoint) (l : List TearPoint)
    (acc : TearPoint × Option ℚ)
    (h : 0 ≤ acc.1.x ∧ acc.1.x ≤ 1 ∧ 0 ≤ acc.1.y ∧ acc.1.y ≤ 1) :
    let r := l.foldl (edgeBestStep point) acc
    0 ≤ r.1.x ∧ r.1.x ≤ 1 ∧ 0 ≤ r.1.y ∧ r.1.y ≤ 1 := by
  induction l generalizing acc with
  | nil => exact h
  | cons c rest ih =>
    refine ih (edgeBestStep point acc c) ?_
    unfold edgeBestStep
    split
    · split
      · exact ⟨(clamp01_mem c.x).1, (clamp01_mem c.x).2,
               (clamp01_mem c.y).1, (clamp01_mem c.y).2⟩
      · split
        · exact ⟨(clamp01_mem c.x).1, (clamp01_mem c.x).2,
                 (clamp01_mem c.y).1, (clamp01_mem c.y).2⟩
        · exact h
    · exact h

/-- A fold over candidates that are all rejected by the
`[-0.01, 1.01]` range filter leaves the accumulator untouched. -/
theorem edgeBestStep_fold_reject (point : TearPoint) (l : List TearPoint)
    (acc : TearPoint × Option ℚ)
    (h : ∀ c ∈ l, ¬(-0.01 ≤ c.x ∧ c.x ≤ 1.01 ∧ -0.01 ≤ c.y ∧ c.y ≤ 1.01)) :
    l.foldl (edgeBestStep point) acc = acc := by
  induction l generalizing acc with
  | nil => rfl
  | cons c rest ih =>
    have hc := h c (by simp)
    simp only [List.foldl_cons]
    rw [show edgeBestStep point acc c = acc from by
      unfold edgeBestStep; rw [if_neg hc]]
    exact ih acc (fun d hd => h d (by simp [hd]))

/-- C3: for every input endpoint, neighbor and flag, the output of
`extendToEdge` lies in `[0,1] × [0,1]`; moreover when every candidate is
rejected by the range filter (in particular when there is none) the
output is the fallback: the endpoint's clamped x projected onto the top
boundary `y = 0`. -/
theorem extendToEdge_mem_unit_square (point neighbor : TearPoint) (isStart : Bool) :
    (0 ≤ (extendToEdge point neighbor isStart).x ∧
      (extendToEdge point neighbor isStart).x ≤ 1 ∧
      0 ≤ (extendToEdge point neighbor isStart).y ∧
      (extendToEdge point neighbor isStart).y ≤ 1) ∧
    ((∀ c ∈ edgeCandidates point (point.x - neighbor.x) (point.y - neighbor.y),
        ¬(-0.01 ≤ c.x ∧ c.x ≤ 1.01 ∧ -0.01 ≤ c.y ∧ c.y ≤ 1.01)) →
      extendToEdge point neighbor isStart = ⟨clamp01 point.x, 0⟩) := by
  constructor
  · unfold extendToEdge
    exact edgeBestStep_fold_mem point _ _
      ⟨(clamp01_mem point.x).1, (clamp01_mem point.x).2, le_refl 0, by norm_num⟩
  · intro h
    cases isStart <;>
      · unfold extendToEdge
        dsimp only
        simp only [ite_self]
        rw [edgeBestStep_fold_reject point _ _ h]

/-- Witness for C3 at a concrete input: endpoint = neighbor = `(0.5, 0.5)`
gives a zero direction vector, hence no candidates, and the fallback
applies. -/
theorem extendToEdge_mem_unit_square_w :
    (0 ≤ (extendToEdge ⟨1/2, 1/2⟩ ⟨1/2, 1/2⟩ true).x ∧
      (extendToEdge ⟨1/2, 1/2⟩ ⟨1/2, 1/2⟩ true).x ≤ 1 ∧
      0 ≤ (extendToEdge ⟨1/2, 1/2⟩ ⟨1/2, 1/2⟩ true).y ∧
      (extendToEdge ⟨1/2, 1/2⟩ ⟨1/2, 1/2⟩ true).y ≤ 1) ∧
    extendToEdge ⟨1/2, 1/2⟩ ⟨1/2, 1/2⟩ true = ⟨clamp01 (1/2), 0⟩ := by
  have h := extendToEdge_mem_unit_square ⟨1/2, 1/2⟩ ⟨1/2, 1/2⟩ true
  exact ⟨h.1, h.2 (by norm_num [edgeCandidates])⟩

/-- C10: the `isStart` flag has no observable effect — both branches of
`extendToEdge` compute the same direction vector `point − neighbor`. -/
theorem extendToEdge_flag_irrelevant (point neighbor : TearPoint) :
    extendToEdge point neighbor true = extendToEdge point neighbor false := rfl

/-- C4: with endpoint `(0.5, 0.5)` and neighbor `(0.5, 0.6)` the direction
is `(0, -0.1)`; the zero x-delta skips the left/right candidates, leaving
exactly the top-edge candidate, and the resolver returns `(0.5, 0)`. -/
theorem extendToEdge_upward_case :
    edgeCandidates ⟨1/2, 1/2⟩ ((1:ℚ)/2 - 1/2) ((1:ℚ)/2 - 3/5) = [⟨1/2, 0⟩] ∧
    ∀ isStart : Bool, extendToEdge ⟨1/2, 1/2⟩ ⟨1/2, 3/5⟩ isStart = ⟨1/2, 0⟩ := by
  constructor
  · norm_num [edgeCandidates]
  · intro isStart
    cases isStart <;>
      norm_num [extendToEdge, edgeCandidates, edgeBestStep, clamp01, List.foldl]

/-- C9 counterexample: with seed 0 the state stays 0 and the very first
yielded value is `-1/2147483646`, outside `[0,1)`. -/
theorem seededRandom_seed_zero_cex : ¬ (0 ≤ lcgVal 0 1 ∧ lcgVal 0 1 < 1) := by
  have h : lcgState 0 1 = 0 := by
    show ((0 : Int) * 16807).tmod 2147483647 = 0
    norm_num
  rw [lcgVal, h]
  norm_num

/-- One LCG step keeps a state in `[1, 2147483646]` inside that range:
the modulus 2147483647 is coprime to the multiplier 16807 and divides no
state in the range, so the remainder is never 0. -/
theorem lcgStep_mem (s : Int) (h1 : 1 ≤ s) (h2 : s ≤ 2147483646) :
    1 ≤ (s * 16807).tmod 2147483647 ∧
      (s * 16807).tmod 2147483647 ≤ 2147483646 := by
  have hpos : (0 : Int) ≤ s * 16807 := mul_nonneg (by linarith) (by norm_num)
  have htm : (s * 16807).tmod 2147483647 = (s * 16807) % 2147483647 :=
    Int.tmod_eq_emod hpos (by norm_num)
  have h0 : 0 ≤ (s * 16807) % 2147483647 := Int.emod_nonneg _ (by norm_num)
  have hlt : (s * 16807) % 2147483647 < 2147483647 :=
    Int.emod_lt_of_pos _ (by norm_num)
  have hne : (s * 16807) % 2147483647 ≠ 0 := by
    intro hz
    have hdvd : (2147483647 : Int) ∣ s * 16807 := Int.dvd_of_emod_eq_zero hz
    have hcop : IsCoprime (2147483647 : Int) 16807 := by norm_num
    have hd : (2147483647 : Int) ∣ s := hcop.dvd_of_dvd_mul_right hdvd
    have := Int.le_of_dvd (by linarith) hd
    linarith
  omega

/-- For a seed in `[1, 2147483646]`, every LCG state stays in that
range. -/
theorem lcgState_mem (seed : Int) (h1 : 1 ≤ seed) (h2 : seed ≤ 2147483646)
    (n : Nat) : 1 ≤ lcgState seed n ∧ lcgState seed n ≤ 2147483646 := by
  induction n with
  | zero => exact ⟨h1, h2⟩
  | succ n ih => exact lcgStep_mem _ ih.1 ih.2

/-- C9 (amended): for every integer seed in `[1, 2147483646]` — positive
and not a multiple of the prime modulus — every value yielded by
`seededRandom` lies in `[0, 1)`. -/
theorem seededRandom_mem_Ico (seed : Int) (h1 : 1 ≤ seed)
    (h2 : seed ≤ 2147483646) (n : Nat) :
    0 ≤ lcgVal seed n ∧ lcgVal seed n < 1 := by
  obtain ⟨hs1, hs2⟩ := lcgState_mem seed h1 h2 n
  unfold lcgVal
  have hc1 : (1 : ℚ) ≤ (lcgState seed n : ℚ) := by exact_mod_cast hs1
  have hc2 : ((lcgState seed n : ℚ)) ≤ 2147483646 := by exact_mod_cast hs2
  constructor
  · apply div_nonneg _ (by norm_num)
    linarith
  · rw [div_lt_one (by norm_num)]
    linarith

/-- Witness for the amended C9 at seed 42, first yielded value. -/
theorem seededRandom_mem_Ico_w :
    (1 : Int) ≤ 42 ∧ (42 : Int) ≤ 2147483646 ∧
      (0 ≤ lcgVal 42 1 ∧ lcgVal 42 1 < 1) :=
  ⟨by norm_num, by norm_num,
    seededRandom_mem_Ico 42 (by norm_num) (by norm_num) 1⟩

/-- C7: for segment count ≥ 1 the jagged edge has exactly
`segments + 1` points, starts at `p1`, ends at `p2` (so it has
`segments − 1` interior points), and the degenerate case `p1 = p2` is
well-defined with no division by zero: since `sq 0 = 0`, the `len || 1`
fallback makes the normal `(0, 0)`. -/
theorem generateJaggedEdge_spec (sq : ℚ → ℚ) (p1 p2 p : TearPoint)
    (jaggedness : ℚ) (segments : Nat) (seed : Int) (hs : 1 ≤ segments) :
    (generateJaggedEdge sq p1 p2 jaggedness segments seed).length = segments + 1 ∧
    (generateJaggedEdge sq p1 p2 jaggedness segments seed).head? = some p1 ∧
    (generateJaggedEdge sq p1 p2 jaggedness segments seed).getLast? = some p2 ∧
    (sq 0 = 0 → jaggedNormal sq p p = (0, 0)) := by
  refine ⟨?_, ?_, ?_, ?_⟩
  · simp [generateJaggedEdge]
    omega
  · simp [generateJaggedEdge]
  · rw [generateJaggedEdge, show (p1 :: (List.range' 1 (segments - 1)).map
        (jaggedInterior sq p1 p2 jaggedness segments seed)) ++ [p2] =
        (p1 :: (List.range' 1 (segments - 1)).map
        (jaggedInterior sq p1 p2 jaggedness segments seed)) ++ [p2] from rfl]
    exact List.getLast?_concat _
  · intro h0
    simp [jaggedNormal, h0]

/-- Witness for C7 at concrete inputs (`sq` instantiated by the identity,
which satisfies `sq 0 = 0`). -/
theorem generateJaggedEdge_spec_w :
    1 ≤ 1 ∧
    ((generateJaggedEdge (fun q => q) ⟨0, 0⟩ ⟨1, 1⟩ (1/100) 1 7).length = 1 + 1 ∧
     (generateJaggedEdge (fun q => q) ⟨0, 0⟩ ⟨1, 1⟩ (1/100) 1 7).head? = some ⟨0, 0⟩ ∧
     (generateJaggedEdge (fun q => q) ⟨0, 0⟩ ⟨1, 1⟩ (1/100) 1 7).getLast? = some ⟨1, 1⟩) ∧
    jaggedNormal (fun q => q) ⟨1/2, 1/2⟩ ⟨1/2, 1/2⟩ = (0, 0) := by
  have h := generateJaggedEdge_spec (fun q => q) ⟨0, 0⟩ ⟨1, 1⟩ ⟨1/2, 1/2⟩
    (1/100) 1 7 (le_refl 1)
  exact ⟨le_refl 1, ⟨h.1, h.2.1, h.2.2.1⟩, h.2.2.2 rfl⟩

/-- C8: chaining a jagged path across 3 consecutive raw segments drops
the first point of every segment after the first. Each dropped point is
the junction vertex, which duplicates the previous segment's last point;
after the drop the junction vertex (at flat positions 4 and 8, each
jagged segment contributing 5 resp. 4 points) is followed by the next
segment's first interior point and — provided that interior point was
not perturbed exactly onto the junction — is not duplicated. -/
theorem jaggedTearPoints_chain_no_dup (sq : ℚ → ℚ) (prog : ℚ)
    (q0 q1 q2 q3 : TearPoint)
    (h1 : (generateJaggedEdge sq q1 q2 (chainJag prog) 4 (chainSeed 1)).get? 1 ≠ some q1)
    (h2 : (generateJaggedEdge sq q2 q3 (chainJag prog) 4 (chainSeed 2)).get? 1 ≠ some q2) :
    (jaggedTearPoints sq [q0, q1, q2, q3] prog =
      generateJaggedEdge sq q0 q1 (chainJag prog) 4 (chainSeed 0) ++
      ((generateJaggedEdge sq q1 q2 (chainJag prog) 4 (chainSeed 1)).drop 1 ++
       (generateJaggedEdge sq q2 q3 (chainJag prog) 4 (chainSeed 2)).drop 1)) ∧
    ((generateJaggedEdge sq q0 q1 (chainJag prog) 4 (chainSeed 0)).getLast? = some q1 ∧
     (generateJaggedEdge sq q1 q2 (chainJag prog) 4 (chainSeed 1)).head? = some q1 ∧
     (generateJaggedEdge sq q1 q2 (chainJag prog) 4 (chainSeed 1)).getLast? = some q2 ∧
     (generateJaggedEdge sq q2 q3 (chainJag prog) 4 (chainSeed 2)).head? = some q2) ∧
    ((jaggedTearPoints sq [q0, q1, q2, q3] prog).get? 4 = some q1 ∧
     (jaggedTearPoints sq [q0, q1, q2, q3] prog).get? 5 ≠ some q1 ∧
     (jaggedTearPoints sq [q0, q1, q2, q3] prog).get? 8 = some q2 ∧
     (jaggedTearPoints sq [q0, q1, q2, q3] prog).get? 9 ≠ some q2) := by
  have hstruct : jaggedTearPoints sq [q0, q1, q2, q3] prog =
      generateJaggedEdge sq q0 q1 (chainJag prog) 4 (chainSeed 0) ++
      ((generateJaggedEdge sq q1 q2 (chainJag prog) 4 (chainSeed 1)).drop 1 ++
       (generateJaggedEdge sq q2 q3 (chainJag prog) 4 (chainSeed 2)).drop 1) := by
    simp [jaggedTearPoints, chainJagged]
  refine ⟨hstruct, ⟨?_, ?_, ?_, ?_⟩, ?_⟩
  · exact (generateJaggedEdge_spec sq q0 q1 q0 (chainJag prog) 4 (chainSeed 0)
      (by norm_num)).2.2.1
  · exact (generateJaggedEdge_spec sq q1 q2 q1 (chainJag prog) 4 (chainSeed 1)
      (by norm_num)).2.1
  · exact (generateJaggedEdge_spec sq q1 q2 q1 (chainJag prog) 4 (chainSeed 1)
      (by norm_num)).2.2.1
  · exact (generateJaggedEdge_spec sq q2 q3 q2 (chainJag prog) 4 (chainSeed 2)
      (by norm_num)).2.1
  · rw [hstruct]
    simp only [generateJaggedEdge, List.range']
    simp [List.get?_append, List.get?]
    exact ⟨fun he => h1 (by simp [generateJaggedEdge, List.range', List.get?, he]),
           fun he => h2 (by simp [generateJaggedEdge, List.range', List.get?, he])⟩

/-- Witness for C8 on a concrete 3-segment diagonal source path with
`sq` instantiated by the identity: the two genericity hypotheses hold by
computation, and the chained path has the junction vertices at positions
4 and 8, not duplicated at positions 5 and 9. -/
theorem jaggedTearPoints_chain_no_dup_w :
    ((generateJaggedEdge (fun q => q) ⟨1/4, 1/4⟩ ⟨1/2, 1/2⟩ (chainJag 0) 4
        (chainSeed 1)).get? 1 ≠ some ⟨1/4, 1/4⟩) ∧
    ((generateJaggedEdge (fun q => q) ⟨1/2, 1/2⟩ ⟨3/4, 3/4⟩ (chainJag 0) 4
        (chainSeed 2)).get? 1 ≠ some ⟨1/2, 1/2⟩) ∧
    ((jaggedTearPoints (fun q => q) [⟨0, 0⟩, ⟨1/4, 1/4⟩, ⟨1/2, 1/2⟩, ⟨3/4, 3/4⟩] 0).get? 4 =
        some ⟨1/4, 1/4⟩ ∧
     (jaggedTearPoints (fun q => q) [⟨0, 0⟩, ⟨1/4, 1/4⟩, ⟨1/2, 1/2⟩, ⟨3/4, 3/4⟩] 0).get? 5 ≠
        some ⟨1/4, 1/4⟩ ∧
     (jaggedTearPoints (fun q => q) [⟨0, 0⟩, ⟨1/4, 1/4⟩, ⟨1/2, 1/2⟩, ⟨3/4, 3/4⟩] 0).get? 8 =
        some ⟨1/2, 1/2⟩ ∧
     (jaggedTearPoints (fun q => q) [⟨0, 0⟩, ⟨1/4, 1/4⟩, ⟨1/2, 1/2⟩, ⟨3/4, 3/4⟩] 0).get? 9 ≠
        some ⟨1/2, 1/2⟩) := by
  have e1 : lcgState (chainSeed 1) 1 = 2420208 := by decide
  have e2 : lcgState (chainSeed 1) 2 = 2021730210 := by decide
  have f1 : lcgState (chainSeed 2) 1 = 4722767 := by decide
  have f2 : lcgState (chainSeed 2) 2 = 2066133677 := by decide
  have h1 : (generateJaggedEdge (fun q => q) ⟨1/4, 1/4⟩ ⟨1/2, 1/2⟩ (chainJag 0) 4
      (chainSeed 1)).get? 1 ≠ some ⟨1/4, 1/4⟩ := by
    simp only [generateJaggedEdge, show List.range' 1 (4 - 1) = [1, 2, 3] from rfl,
      List.map_cons, List.map_nil, List.cons_append, List.get?]
    intro he
    rw [Option.some_inj] at he
    have hx := congrArg TearPoint.x he
    rw [jaggedInterior, jaggedNormal] at hx
    norm_num [lcgVal, e1, e2, chainJag] at hx
  have h2 : (generateJaggedEdge (fun q => q) ⟨1/2, 1/2⟩ ⟨3/4, 3/4⟩ (chainJag 0) 4
      (chainSeed 2)).get? 1 ≠ some ⟨1/2, 1/2⟩ := by
    simp only [generateJaggedEdge, show List.range' 1 (4 - 1) = [1, 2, 3] from rfl,
      List.map_cons, List.map_nil, List.cons_append, List.get?]
    intro he
    rw [Option.some_inj] at he
    have hx := congrArg TearPoint.x he
    rw [jaggedInterior, jaggedNormal] at hx
    norm_num [lcgVal, f1, f2, chainJag] at hx
  exact ⟨h1, h2,
    (jaggedTearPoints_chain_no_dup (fun q => q) 0 ⟨0, 0⟩ ⟨1/4, 1/4⟩ ⟨1/2, 1/2⟩
      ⟨3/4, 3/4⟩ h1 h2).2.2⟩

theorem cross2_antisymm (a b : TearPoint) : cross2 a b = -cross2 b a := by
  unfold cross2; ring

/-- Splitting the shoelace edge sum at a junction between two nonempty
polylines. -/
theorem segSum_append (x : TearPoint) (xs : List TearPoint) (y : TearPoint)
    (ys : List TearPoint) :
    segSum ((x :: xs) ++ y :: ys) =
      segSum (x :: xs) + cross2 (xs.getLastD x) y + segSum (y :: ys) := by
  induction xs generalizing x with
  | nil => simp [segSum, List.getLastD]
  | cons b xs ih =>
    have h := ih b
    simp only [List.cons_append] at h ⊢
    rw [segSum, segSum, List.getLastD_cons, h]
    ring

/-- Reversing a polyline negates its shoelace edge sum. -/
theorem segSum_reverse (l : List TearPoint) : segSum l.reverse = -segSum l := by
  induction l with
  | nil => simp [segSum]
  | cons a l ih =>
    cases l with
    | nil => simp [segSum]
    | cons b t =>
      obtain ⟨y, ys, hy⟩ : ∃ y ys, (b :: t).reverse = y :: ys := by
        cases h : (b :: t).reverse with
        | nil => exact absurd (congrArg List.length h) (by simp)
        | cons y ys => exact ⟨y, ys, rfl⟩
      have hlast : ys.getLastD y = b := by
        have h1 : (y :: ys).getLast? = some b := by
          rw [← hy, List.getLast?_reverse]; rfl
        have h2 : (y :: ys).getLastD y = b := by
          rw [List.getLastD_eq_getLast?, h1]; rfl
        rwa [List.getLastD_cons] at h2
      rw [List.reverse_cons, hy]
      have happ := segSum_append y ys a []
      simp only [segSum] at happ
      rw [happ, hlast]
      rw [hy] at ih
      rw [ih, segSum, cross2_antisymm a b]
      ring

/-- `segSum_append` with the first list exposed as a cons. -/
theorem segSum_cons_append (x : TearPoint) (xs : List TearPoint) (y : TearPoint)
    (ys : List TearPoint) :
    segSum (x :: (xs ++ y :: ys)) =
      segSum (x :: xs) + cross2 (xs.getLastD x) y + segSum (y :: ys) := by
  have h := segSum_append x xs y ys
  rwa [List.cons_append] at h

/-- The tiling identity behind C1, for an arbitrary nonempty tear chain
and arbitrary left/right splice heights `fy`, `ly`: the top polygon
(corners, then the chain reversed) and the bottom polygon (the chain
forward, then corners) have signed areas summing to exactly 1, the area
of the unit square — the shared chain edges cancel pairwise. -/
theorem shoelace_split (c : TearPoint) (cs : List TearPoint) (fy ly : ℚ) :
    shoelace ([⟨0, 0⟩, ⟨1, 0⟩, ⟨1, ly⟩] ++ (c :: cs).reverse ++ [⟨0, fy⟩]) +
      shoelace (⟨0, fy⟩ :: ((c :: cs) ++ [⟨1, ly⟩, ⟨1, 1⟩, ⟨0, 1⟩])) = 1 := by
  obtain ⟨w, ws, hw⟩ : ∃ w ws, (c :: cs).reverse = w :: ws := by
    cases h : (c :: cs).reverse with
    | nil => exact absurd (congrArg List.length h) (by simp)
    | cons w ws => exact ⟨w, ws, rfl⟩
  have hlastrev : ws.getLastD w = c := by
    have h1 : (w :: ws).getLast? = some c := by
      rw [← hw, List.getLast?_reverse]; rfl
    have h2 : (w :: ws).getLastD w = c := by
      rw [List.getLastD_eq_getLast?, h1]; rfl
    rwa [List.getLastD_cons] at h2
  have hheadrev : cs.getLastD c = w := by
    have h1 : (c :: cs).getLast? = some w := by
      rw [← List.head?_reverse, hw]; rfl
    have h2 : (c :: cs).getLastD c = w := by
      rw [List.getLastD_eq_getLast?, h1]; rfl
    rwa [List.getLastD_cons] at h2
  have hrevsum : segSum (w :: ws) = -segSum (c :: cs) := by
    rw [← hw, segSum_reverse]
  unfold shoelace
  rw [hw]
  simp only [List.cons_append, List.nil_append, List.append_assoc,
    List.take_succ_cons, List.take_zero, List.singleton_append]
  simp only [segSum]
  rw [segSum_cons_append w ws ⟨0, fy⟩ [⟨0, 0⟩]]
  rw [segSum_cons_append c cs ⟨1, ly⟩ [⟨1, 1⟩, ⟨0, 1⟩, ⟨0, fy⟩]]
  rw [hrevsum, hlastrev, hheadrev]
  simp only [segSum, cross2]
  ring

/-- C1: for every jagged path with at least 2 points, the two clip
polygons produced by the Clip Geometry Builder tile the unit square: the
signed areas of the top piece and the bottom piece sum to exactly 1 (the
shared chain edges cancel pairwise, so no region is missed or counted
twice), and both polygons carry the (rendered) tear vertices exactly —
the bottom piece contains the rendered tear path, and the top piece its
reversal, as contiguous runs of their boundaries. -/
theorem clipPolys_tile_unit_square (p1 p2 : TearPoint) (rest : List TearPoint) :
    shoelace (clipPolys (p1 :: p2 :: rest)).1 +
      shoelace (clipPolys (p1 :: p2 :: rest)).2 = 1 ∧
    List.IsInfix (((p1 :: p2 :: rest).map roundPt).reverse)
      (clipPolys (p1 :: p2 :: rest)).1 ∧
    List.IsInfix ((p1 :: p2 :: rest).map roundPt)
      (clipPolys (p1 :: p2 :: rest)).2 := by
  refine ⟨?_, ?_, ?_⟩
  · simp only [clipPolys]
    rw [List.map_reverse]
    exact shoelace_split (roundPt p1) ((p2 :: rest).map roundPt) (pctRound p1.y)
      (pctRound (((p2 :: rest).getLastD p2).y))
  · simp only [clipPolys]
    rw [List.map_reverse]
    exact List.infix_append _ _ _
  · simp only [clipPolys]
    exact ⟨[⟨0, pctRound p1.y⟩],
      [⟨1, pctRound (((p2 :: rest).getLastD p2).y)⟩, ⟨1, 1⟩, ⟨0, 1⟩], by simp⟩

theorem finishTear_isRevealed (lp : Option TearPoint) (s : TearState) :
    (finishTear lp s).isRevealed = true := by
  simp only [finishTear]

theorem finishTear_calls (lp : Option TearPoint) (s : TearState) :
    (finishTear lp s).revealedCalls = s.revealedCalls + 1 := by
  simp only [finishTear]
  split <;> rfl

theorem finishTear_tearProgress (lp : Option TearPoint) (s : TearState) :
    (finishTear lp s).tearProgress = s.tearProgress := by
  simp only [finishTear]
  split <;> rfl

/-- C2: on pointer-up while dragging and not yet revealed, the machine
commits to `Revealed` exactly when progress ≥ 0.85, or progress ≥ 0.6
with the last recorded point within 4% of an edge; otherwise it snaps
back to `Idle` with the raw path cleared, progress reset to 0, and the
`completedTear` left as it was (no `CompletedTear` produced). -/
theorem pointerUp_commit_or_snapback (s : TearState)
    (hrev : s.isRevealed = false) (hdrag : s.isDragging = true) :
    ((0.85 ≤ s.tearProgress ∨ (0.6 ≤ s.tearProgress ∧ nearEdgeUp s.lastPoint)) →
      phase (handleCoverPointerUp s) = InteractionPhase.Revealed) ∧
    (¬(0.85 ≤ s.tearProgress ∨ (0.6 ≤ s.tearProgress ∧ nearEdgeUp s.lastPoint)) →
      phase (handleCoverPointerUp s) = InteractionPhase.Idle ∧
      (handleCoverPointerUp s).tearPath = [] ∧
      (handleCoverPointerUp s).tearProgress = 0 ∧
      (handleCoverPointerUp s).completedTear = s.completedTear) := by
  constructor
  · intro hc
    simp only [handleCoverPointerUp, hrev]
    rw [if_neg (by simp), if_pos hc]
    simp [phase, finishTear_isRevealed]
  · intro hc
    simp only [handleCoverPointerUp, hrev]
    rw [if_neg (by simp), if_neg hc]
    simp [phase, hrev]

/-- Witness for C2: a drag at exactly 85% progress with the last point at
the surface center (no edge proximity) commits, and a drag at 50% snaps
back with path cleared and progress reset. -/
theorem pointerUp_commit_or_snapback_w :
    phase (handleCoverPointerUp
        ⟨false, true, 0.85, [⟨1/2, 1/2⟩], none, some (0, 0), some ⟨1/2, 1/2⟩, 0⟩) =
      InteractionPhase.Revealed ∧
    (phase (handleCoverPointerUp
        ⟨false, true, 0.5, [⟨1/2, 1/2⟩], none, some (0, 0), some ⟨1/2, 1/2⟩, 0⟩) =
        InteractionPhase.Idle ∧
      (handleCoverPointerUp
        ⟨false, true, 0.5, [⟨1/2, 1/2⟩], none, some (0, 0), some ⟨1/2, 1/2⟩, 0⟩).tearPath = [] ∧
      (handleCoverPointerUp
        ⟨false, true, 0.5, [⟨1/2, 1/2⟩], none, some (0, 0), some ⟨1/2, 1/2⟩, 0⟩).tearProgress = 0 ∧
      (handleCoverPointerUp
        ⟨false, true, 0.5, [⟨1/2, 1/2⟩], none, some (0, 0), some ⟨1/2, 1/2⟩, 0⟩).completedTear = none) := by
  constructor
  · exact (pointerUp_commit_or_snapback _ rfl rfl).1 (Or.inl (le_refl _))
  · exact (pointerUp_commit_or_snapback _ rfl rfl).2 (by norm_num [nearEdgeUp])

/-- A step on an already revealed state is the identity: every handler
returns early. -/
theorem step_terminal (sq : ℚ → ℚ) (cfg : CoverConfig) (e : TearEvent)
    (s : TearState) (h : s.isRevealed = true) : step sq cfg s e = s := by
  cases e with
  | down cx cy => simp [step, handleCoverPointerDown, h]
  | move cx cy => simp [step, handleCoverPointerMove, h]
  | up => simp [step, handleCoverPointerUp, h]
  | tap => simp [step, handleTapOpen, h]

/-- A step from an unrevealed state bumps the callback count by exactly
one when it enters `Revealed`, and leaves it unchanged otherwise. -/
theorem step_calls (sq : ℚ → ℚ) (cfg : CoverConfig) (e : TearEvent)
    (s : TearState) (h : s.isRevealed = false) :
    (step sq cfg s e).revealedCalls =
      s.revealedCalls + (if (step sq cfg s e).isRevealed = true then 1 else 0) := by
  cases e with
  | down cx cy => simp [step, handleCoverPointerDown, h]
  | move cx cy =>
    simp only [step, handleCoverPointerMove]
    split
    · simp [h]
    · split
      · dsimp only
        split <;> split <;>
          simp [h, finishTear_calls, finishTear_isRevealed]
      · simp [h]
  | up =>
    simp only [step, handleCoverPointerUp, h]
    rw [if_neg (by simp)]
    dsimp only
    split
    · simp [finishTear_calls, finishTear_isRevealed]
    · simp [h]
  | tap =>
    simp only [step, handleTapOpen, h]
    split
    · simp [h]
    · split
      · simp [h]
      · simp

/-- The invariant "the callback has fired exactly once iff revealed"
is preserved along any event sequence. -/
theorem runEvents_calls_inv (sq : ℚ → ℚ) (cfg : CoverConfig)
    (es : List TearEvent) (s : TearState)
    (hinv : s.revealedCalls = if s.isRevealed = true then 1 else 0) :
    (es.foldl (step sq cfg) s).revealedCalls =
      if (es.foldl (step sq cfg) s).isRevealed = true then 1 else 0 := by
  induction es generalizing s with
  | nil => exact hinv
  | cons e es ih =>
    simp only [List.foldl_cons]
    refine ih (step sq cfg s e) ?_
    cases hr : s.isRevealed with
    | true => rw [step_terminal sq cfg e s hr, hinv, hr]
    | false =>
      rw [step_calls sq cfg e s hr, hinv, hr]
      simp

/-- C5: `Revealed` is terminal — every subsequent pointer-down,
pointer-move, pointer-up or tap event leaves the whole tear state
unchanged — and the `onRevealed` callback fires exactly once per
session, at the moment `Revealed` is entered: a step from an unrevealed
state bumps the call count by 1 exactly when it enters `Revealed`, and
over any event sequence from the mount state the call count is 1 iff
the machine is revealed (0 otherwise). -/
theorem revealed_terminal_callback_once (sq : ℚ → ℚ) (cfg : CoverConfig) :
    (∀ (e : TearEvent) (s : TearState), s.isRevealed = true → step sq cfg s e = s) ∧
    (∀ (e : TearEvent) (s : TearState), s.isRevealed = false →
      (step sq cfg s e).revealedCalls =
        s.revealedCalls + (if (step sq cfg s e).isRevealed = true then 1 else 0)) ∧
    (∀ es : List TearEvent,
      (runEvents sq cfg es).revealedCalls =
        if (runEvents sq cfg es).isRevealed = true then 1 else 0) :=
  ⟨fun e s h => step_terminal sq cfg e s h,
   fun e s h => step_calls sq cfg e s h,
   fun es => runEvents_calls_inv sq cfg es initState rfl⟩

/-- Witness for C5: a pointer-up on a concrete revealed state is a
no-op; a tap from the mount state on a touch device fires the callback
once upon entering `Revealed`; a one-tap session ends with call count 1
iff revealed. -/
theorem revealed_terminal_callback_once_w :
    step (fun q => q) ⟨0, 0, 1, 1, 1, 1, true⟩
        ⟨true, false, 0, [], none, none, none, 1⟩ .up =
      ⟨true, false, 0, [], none, none, none, 1⟩ ∧
    (step (fun q => q) ⟨0, 0, 1, 1, 1, 1, true⟩ initState .tap).revealedCalls =
      initState.revealedCalls +
        (if (step (fun q => q) ⟨0, 0, 1, 1, 1, 1, true⟩ initState .tap).isRevealed = true
          then 1 else 0) ∧
    (runEvents (fun q => q) ⟨0, 0, 1, 1, 1, 1, true⟩ [.tap]).revealedCalls =
      if (runEvents (fun q => q) ⟨0, 0, 1, 1, 1, 1, true⟩ [.tap]).isRevealed = true
        then 1 else 0 :=
  ⟨(revealed_terminal_callback_once (fun q => q) ⟨0, 0, 1, 1, 1, 1, true⟩).1 .up _ rfl,
   (revealed_terminal_callback_once (fun q => q) ⟨0, 0, 1, 1, 1, 1, true⟩).2.1 .tap initState rfl,
   (revealed_terminal_callback_once (fun q => q) ⟨0, 0, 1, 1, 1, 1, true⟩).2.2 [.tap]⟩

/-- During a drag, a pointer-move sets `tearProgress` to
min(dist / (diagonal · 0.85), 1) computed from the raw drag-start
distance, whether or not the move short-circuits into `finishTear`
(which does not touch progress). -/
theorem pointerMove_progress_formula (sq : ℚ → ℚ) (cfg : CoverConfig)
    (cx cy : ℚ) (s : TearState) (st : ℚ × ℚ) (lp : TearPoint)
    (hdrag : s.isDragging = true) (hrev : s.isRevealed = false)
    (hst : s.dragStart = some st) (hlp : s.lastPoint = some lp) :
    (handleCoverPointerMove sq cfg cx cy s).tearProgress =
      min (sq ((cx - st.1) * (cx - st.1) + (cy - st.2) * (cy - st.2)) /
        (sq (cfg.offsetW ^ 2 + cfg.offsetH ^ 2) * 0.85)) 1 := by
  simp only [handleCoverPointerMove, hdrag, hrev, hst, hlp]
  rw [if_neg (by simp)]
  split
  · rw [finishTear_tearProgress]
  · rfl

/-- After a pointer-move during a drag, the machine is either revealed
(progress frozen from then on) or still dragging with the same drag
start and some recorded last point. -/
theorem pointerMove_state (sq : ℚ → ℚ) (cfg : CoverConfig)
    (cx cy : ℚ) (s : TearState) (st : ℚ × ℚ) (lp : TearPoint)
    (hdrag : s.isDragging = true) (hrev : s.isRevealed = false)
    (hst : s.dragStart = some st) (hlp : s.lastPoint = some lp) :
    (handleCoverPointerMove sq cfg cx cy s).isRevealed = true ∨
    ((handleCoverPointerMove sq cfg cx cy s).isRevealed = false ∧
     (handleCoverPointerMove sq cfg cx cy s).isDragging = true ∧
     (handleCoverPointerMove sq cfg cx cy s).dragStart = some st ∧
     ∃ lp2, (handleCoverPointerMove sq cfg cx cy s).lastPoint = some lp2) := by
  simp only [handleCoverPointerMove, hdrag, hrev, hst, hlp]
  rw [if_neg (by simp)]
  split
  · exact Or.inl (finishTear_isRevealed _ _)
  · refine Or.inr ?_
    split
    · exact ⟨rfl, rfl, rfl, _, rfl⟩
    · exact ⟨hrev, hdrag, hst, lp, hlp⟩

/-- C6: during a drag with fixed surface dimensions, the computed
progress equals min(straight-line distance from the drag start to the
pointer divided by 85% of the surface diagonal, 1); it is always bounded
in [0,1], and across two successive pointer-moves whose second position
is at least as far from the drag start, it is non-decreasing (also when
the first move already commits the tear, since progress is then frozen).
`sq` is assumed monotone, nonnegative on nonnegative inputs, and nonzero
on the squared diagonal, as the real square root is for a mounted
cover. -/
theorem pointerMove_progress_monotone (sq : ℚ → ℚ) (cfg : CoverConfig)
    (hmono : Monotone sq) (hnn : ∀ q : ℚ, 0 ≤ q → 0 ≤ sq q)
    (hdiag : 0 < sq (cfg.offsetW ^ 2 + cfg.offsetH ^ 2))
    (s : TearState) (st : ℚ × ℚ) (lp : TearPoint) (cx cy cx2 cy2 : ℚ)
    (hdrag : s.isDragging = true) (hrev : s.isRevealed = false)
    (hst : s.dragStart = some st) (hlp : s.lastPoint = some lp) :
    ((handleCoverPointerMove sq cfg cx cy s).tearProgress =
      min (sq ((cx - st.1) * (cx - st.1) + (cy - st.2) * (cy - st.2)) /
        (sq (cfg.offsetW ^ 2 + cfg.offsetH ^ 2) * 0.85)) 1) ∧
    (0 ≤ (handleCoverPointerMove sq cfg cx cy s).tearProgress ∧
      (handleCoverPointerMove sq cfg cx cy s).tearProgress ≤ 1) ∧
    ((cx - st.1) * (cx - st.1) + (cy - st.2) * (cy - st.2) ≤
        (cx2 - st.1) * (cx2 - st.1) + (cy2 - st.2) * (cy2 - st.2) →
      (handleCoverPointerMove sq cfg cx cy s).tearProgress ≤
        (handleCoverPointerMove sq cfg cx2 cy2
          (handleCoverPointerMove sq cfg cx cy s)).tearProgress) := by
  have hR : (0 : ℚ) < sq (cfg.offsetW ^ 2 + cfg.offsetH ^ 2) * 0.85 :=
    mul_pos hdiag (by norm_num)
  have hform := pointerMove_progress_formula sq cfg cx cy s st lp hdrag hrev hst hlp
  refine ⟨hform, ?_, ?_⟩
  · rw [hform]
    constructor
    · refine le_min ?_ (by norm_num)
      exact div_nonneg
        (hnn _ (add_nonneg (mul_self_nonneg _) (mul_self_nonneg _))) hR.le
    · exact min_le_right _ _
  · intro hfar
    rcases pointerMove_state sq cfg cx cy s st lp hdrag hrev hst hlp with
      hnr | ⟨hnr, hdrag2, hst2, lp2, hlp2⟩
    · have hnoop : handleCoverPointerMove sq cfg cx2 cy2
          (handleCoverPointerMove sq cfg cx cy s) =
          handleCoverPointerMove sq cfg cx cy s := by
        rw [handleCoverPointerMove, if_pos (Or.inr hnr)]
      rw [hnoop]
    · rw [hform,
        pointerMove_progress_formula sq cfg cx2 cy2 _ st lp2 hdrag2 hnr hst2 hlp2]
      refine min_le_min ?_ (le_refl 1)
      exact (div_le_div_right hR).mpr (hmono hfar)

/-- Witness for C6 with `sq` the identity (monotone, nonnegative,
positive on the squared diagonal of a 1×1 cover): drag start `(0,0)`,
first move to `(1,0)`, second move to `(2,0)`. -/
theorem pointerMove_progress_monotone_w :
    Monotone (fun q : ℚ => q) ∧
    (∀ q : ℚ, 0 ≤ q → 0 ≤ (fun q : ℚ => q) q) ∧
    ((0 : ℚ) < (fun q : ℚ => q) ((1 : ℚ) ^ 2 + (1 : ℚ) ^ 2)) ∧
    (((1 : ℚ) - 0) * ((1 : ℚ) - 0) + ((0 : ℚ) - 0) * ((0 : ℚ) - 0) ≤
      ((2 : ℚ) - 0) * ((2 : ℚ) - 0) + ((0 : ℚ) - 0) * ((0 : ℚ) - 0)) ∧
    ((handleCoverPointerMove (fun q => q) ⟨0, 0, 1, 1, 1, 1, false⟩ 1 0
        ⟨false, true, 0, [⟨0, 0⟩], none, some (0, 0), some ⟨0, 0⟩, 0⟩).tearProgress =
      min ((((1 : ℚ) - 0) * ((1 : ℚ) - 0) + ((0 : ℚ) - 0) * ((0 : ℚ) - 0)) /
        (((1 : ℚ) ^ 2 + (1 : ℚ) ^ 2) * 0.85)) 1 ∧
     (handleCoverPointerMove (fun q => q) ⟨0, 0, 1, 1, 1, 1, false⟩ 1 0
        ⟨false, true, 0, [⟨0, 0⟩], none, some (0, 0), some ⟨0, 0⟩, 0⟩).tearProgress ≤
      (handleCoverPointerMove (fun q => q) ⟨0, 0, 1, 1, 1, 1, false⟩ 2 0
        (handleCoverPointerMove (fun q => q) ⟨0, 0, 1, 1, 1, 1, false⟩ 1 0
          ⟨false, true, 0, [⟨0, 0⟩], none, some (0, 0), some ⟨0, 0⟩, 0⟩)).tearProgress) := by
  have h := pointerMove_progress_monotone (fun q => q) ⟨0, 0, 1, 1, 1, 1, false⟩
    (fun _ _ hab => hab) (fun _ hq => hq) (by norm_num)
    ⟨false, true, 0, [⟨0, 0⟩], none, some (0, 0), some ⟨0, 0⟩, 0⟩
    (0, 0) ⟨0, 0⟩ 1 0 2 0 rfl rfl rfl rfl
  exact ⟨fun _ _ hab => hab, fun _ hq => hq, by norm_num, by norm_num,
    h.1, h.2.2 (by norm_num)⟩

end TearSim

